import Mathlib

/-!
Verification of the hand-rolled spreadsheet archive codec and the calendar
transform scripts of the Circana_Sales_Out repository.

Strings and byte blobs are modelled as lists of Unicode code points
(`List Nat`); Python integers are modelled as `Int` where sign matters and as
`Nat` where the source only ever sees non-negative values.  Fallible Python
code (raising exceptions) is modelled with `Option`/`Except` results.
-/

namespace Circana

/-- Code points of a Lean string literal, used to write byte-string constants
readably. -/
def strCodes (s : String) : List Nat := s.toList.map Char.toNat

/-- ASCII upper-casing on one code point, modelling Python `str.upper` on the
ASCII range (the only range the codec ever feeds it). -/
def pyUpper (c : Nat) : Nat := if 97 ≤ c ∧ c ≤ 122 then c - 32 else c

/-- ASCII lower-casing on one code point, modelling Python `str.lower` on the
ASCII range. -/
def asciiLower (c : Nat) : Nat := if 65 ≤ c ∧ c ≤ 90 then c + 32 else c

/-- Value a single character contributes in `col_letter_to_index`:
`ord(ch.upper()) - 64` from the source.  It can be negative for
non-alphabetic characters, hence `Int`. -/
def charVal (c : Nat) : Int := (pyUpper c : Int) - 64

/-- `col_letter_to_index` from `fake_excel_generator.py`: folds
`idx = idx * 26 + (ord(ch.upper()) - 64)` over the characters. -/
def col_letter_to_index (letter : List Nat) : Int :=
  letter.foldl (fun idx ch => idx * 26 + charVal ch) 0

/-- `col_index_to_letter` from `fake_excel_generator.py`, on the non-negative
integers where its `while idx:` loop terminates: each iteration computes
`idx, rem = divmod(idx - 1, 26)` and prepends `chr(65 + rem)`. -/
def col_index_to_letter : Nat → List Nat
  | 0 => []
  | n + 1 => col_index_to_letter (n / 26) ++ [65 + n % 26]
decreasing_by exact Nat.lt_succ_of_le (Nat.div_le_self n 26)

/-- Fuel-indexed model of the `while idx:` loop of `col_index_to_letter` over
full Python integers (`Int`, floor division as in Python's `divmod`):
`none` means the loop has not reached `idx = 0` within the given number of
iterations. -/
def col_index_to_letter_loop : Nat → Int → Option (List Nat)
  | 0, idx => if idx = 0 then some [] else none
  | fuel + 1, idx =>
    if idx = 0 then some []
    else
      match col_index_to_letter_loop fuel ((idx - 1).fdiv 26) with
      | some l => some (l ++ [65 + ((idx - 1).fmod 26).toNat])
      | none => none

/-- Whether a code point is an ASCII letter. -/
def isAsciiAlpha (c : Nat) : Bool := (65 ≤ c && c ≤ 90) || (97 ≤ c && c ≤ 122)

/-- Error type of the Address Arithmetic contract in the specification. -/
inductive AddrError where
  | invalidAddress
deriving DecidableEq

/-- Second definition for the refinement claim about `lettersToIndex`,
following the specification's words: case-insensitive, and it "fails with
`InvalidAddress` on non-alphabetic input". -/
def col_letter_to_index_spec (letter : List Nat) : Except AddrError Int :=
  if letter.all isAsciiAlpha then Except.ok (col_letter_to_index letter)
  else Except.error AddrError.invalidAddress

/-- Whether a code point is ASCII whitespace, the class Python's `str.strip`
and argument-less `str.split` remove. -/
def isPySpace (c : Nat) : Bool := c = 32 || c = 9 || c = 10 || c = 13 || c = 11 || c = 12

/-- Drop leading ASCII whitespace. -/
def lstripCodes : List Nat → List Nat
  | [] => []
  | c :: rest => if isPySpace c then lstripCodes rest else c :: rest

/-- Python `str.strip()`: whitespace removed from both ends. -/
def pyStrip (s : List Nat) : List Nat :=
  lstripCodes ((lstripCodes s.reverse).reverse)

/-- Whether a code point is an ASCII digit. -/
def isDigitCode (c : Nat) : Bool := 48 ≤ c && c ≤ 57

/-- Decimal value of a digit string (callers check `isDigitCode` first). -/
def digitsToNat (s : List Nat) : Nat := s.foldl (fun a c => a * 10 + (c - 48)) 0

/-- Python `int(s)` on a string: strips whitespace, accepts an optional sign
followed by at least one decimal digit, `none` models a raised `ValueError`.
(Underscore digit separators are not modelled; no input here uses them.) -/
def pyInt? (s : List Nat) : Option Int :=
  match pyStrip s with
  | 45 :: ds => if ds ≠ [] ∧ ds.all isDigitCode then some (-(digitsToNat ds : Int)) else none
  | 43 :: ds => if ds ≠ [] ∧ ds.all isDigitCode then some ((digitsToNat ds : Int)) else none
  | ds => if ds ≠ [] ∧ ds.all isDigitCode then some ((digitsToNat ds : Int)) else none

/-- Python `lst[i]` on a list of strings: non-negative indices count from the
front, negative indices from the back, `none` models a raised `IndexError`. -/
def pyIndex (l : List (List Nat)) (i : Int) : Option (List Nat) :=
  if 0 ≤ i then l[i.toNat]?
  else if 0 ≤ i + l.length then l[(i + l.length).toNat]?
  else none

/-- Python `str.replace(pat, r)` for a single-character pattern `pat`: every
occurrence of the character is substituted by `r`. -/
def replaceChar (p : Nat) (r : List Nat) : List Nat → List Nat
  | [] => []
  | c :: rest => (if c = p then r else [c]) ++ replaceChar p r rest

/-- The entity `&amp;`. -/
def ampEnt : List Nat := strCodes "&amp;"

/-- The entity `&lt;`. -/
def ltEnt : List Nat := strCodes "&lt;"

/-- The entity `&gt;`. -/
def gtEnt : List Nat := strCodes "&gt;"

/-- `xml.sax.saxutils.escape` as called by `build_row_xml` (no extra entity
map): replaces `&` first, then `<`, then `>`. -/
def escape (s : List Nat) : List Nat :=
  replaceChar 62 gtEnt (replaceChar 60 ltEnt (replaceChar 38 ampEnt s))

/-- XML 1.0 text-content re-parsing of the five predefined entities
(`&amp;` `&lt;` `&gt;` `&quot;` `&apos;`), used as the observation function
for the claim that re-parsing an emitted cell recovers the original string.
An `&` that starts no recognised entity is read literally. -/
def unescape : List Nat → List Nat
  | [] => []
  | c :: rest =>
    if c = 38 ∧ [97, 109, 112, 59].isPrefixOf rest then 38 :: unescape (rest.drop 4)
    else if c = 38 ∧ [108, 116, 59].isPrefixOf rest then 60 :: unescape (rest.drop 3)
    else if c = 38 ∧ [103, 116, 59].isPrefixOf rest then 62 :: unescape (rest.drop 3)
    else if c = 38 ∧ [113, 117, 111, 116, 59].isPrefixOf rest then 34 :: unescape (rest.drop 5)
    else if c = 38 ∧ [97, 112, 111, 115, 59].isPrefixOf rest then 39 :: unescape (rest.drop 5)
    else c :: unescape rest
termination_by s => s.length
decreasing_by all_goals (simp only [List.length_cons, List.length_drop]; omega)

/-- One `si` entry of the shared-strings part: the ordered `t` descendant
nodes found by `si.findall(".//main:t")`, each with its optional text. -/
structure SharedStringEntry where
  runs : List (Option (List Nat))
deriving DecidableEq

/-- Flattened text of one entry: `"".join(t.text or "" for t in runs)`. -/
def entryText (si : SharedStringEntry) : List Nat :=
  (si.runs.map (fun t => t.getD [])).flatten

/-- `parse_shared_strings` from `fake_excel_generator.py`: `none` models an
archive without `xl/sharedStrings.xml` (the early `return []`), otherwise the
parsed `si` entries are flattened in order. -/
def parse_shared_strings (part : Option (List SharedStringEntry)) : List (List Nat) :=
  match part with
  | none => []
  | some sis => sis.map entryText

/-- One worksheet `c` element as `decode_cell` sees it: the optional `t`
attribute, the optional `v` child with its optional text, and the optional
first `t` descendant with its optional text (for inline strings). -/
structure Cell where
  t : Option (List Nat)
  v : Option (Option (List Nat))
  is_t : Option (Option (List Nat))
deriving DecidableEq

/-- `decode_cell` from `fake_excel_generator.py`.  `none` models a raised
exception: `int(None)` (a `v` node with no text in shared-string form),
`int` of a non-numeric text, or an `IndexError` from the list access. -/
def decode_cell (cell : Cell) (shared_strings : List (List Nat)) : Option (List Nat) :=
  if cell.t = some [115] ∧ cell.v.isSome then
    match cell.v with
    | some (some vtext) =>
      match pyInt? vtext with
      | some idx =>
        if idx < (shared_strings.length : Int) then pyIndex shared_strings idx
        else some []
      | none => none
    | _ => none
  else if cell.t = some (strCodes "inlineStr") then
    match cell.is_t with
    | some txt => some (txt.getD [])
    | none => some []
  else
    match cell.v with
    | some vtext => some (vtext.getD [])
    | none => some []

/-- Longest leading run of `A`–`Z`, the text matched by `re.match("([A-Z]+)", ref)`
in `parse_sheet_meta` (empty when the regex does not match). -/
def leadingLetters : List Nat → List Nat
  | [] => []
  | c :: rest => if 65 ≤ c ∧ c ≤ 90 then c :: leadingLetters rest else []

/-- Sort key `parse_sheet_meta` computes for one cell reference: the column
index of the matched letter prefix, with `"A"` as fallback when the
reference has no letter prefix. -/
def refSortKey (ref : List Nat) : Int :=
  col_letter_to_index (match leadingLetters ref with | [] => [65] | m => m)

/-- One `c` element of the first row as seen by `parse_sheet_meta`: its
optional `r` reference attribute and its decodable content. -/
structure SheetCell where
  r : Option (List Nat)
  cell : Cell
deriving DecidableEq

/-- Key of one first-row cell: `c.attrib.get("r", "")` fed to the regex and
`col_letter_to_index`. -/
def cellSortKey (c : SheetCell) : Int := refSortKey (c.r.getD [])

/-- Comparison used to model Python's stable `sorted(row_cells, key=...)`. -/
def cellLe (a b : SheetCell) : Bool := cellSortKey a ≤ cellSortKey b

/-- `sorted(row_cells, key=...)` of `parse_sheet_meta` (merge sort is stable,
like Python's sort). -/
def sortedFirstRow (cells : List SheetCell) : List SheetCell :=
  cells.mergeSort cellLe

/-- Header extraction of `parse_sheet_meta` for the first row:
`[decode_cell(c, shared_strings) for c in sorted_cells]`. -/
def firstRowHeaders (shared_strings : List (List Nat)) (cells : List SheetCell) :
    List (Option (List Nat)) :=
  (sortedFirstRow cells).map (fun c => decode_cell c.cell shared_strings)

/-- Decimal digit string of a natural number (fuel-indexed helper; the fuel
`n + 1` always suffices). -/
def natDigitsAux : Nat → Nat → List Nat
  | 0, _ => []
  | fuel + 1, n => if n < 10 then [48 + n] else natDigitsAux fuel (n / 10) ++ [48 + n % 10]

/-- Decimal rendering of a natural number, as Python string interpolation of
a non-negative `int` produces it. -/
def natDigits (n : Nat) : List Nat := natDigitsAux (n + 1) n

/-- A cell value handed to `build_row_xml`: `none` is Python `None`, otherwise
the string rendering of the value. -/
def pyStrOfVal : Option (List Nat) → List Nat
  | some s => s
  | none => strCodes "None"

/-- Python `zip` over three lists: truncates to the shortest. -/
def zip3 : List α → List β → List γ → List (α × β × γ)
  | a :: as, b :: bs, c :: cs => (a, b, c) :: zip3 as bs cs
  | _, _, _ => []

/-- XML for one cell of `build_row_xml`: the numeric branch emits a bare
`v` literal, the text branch an inline string with `escape` applied
(`None` becomes the empty text there). -/
def cellXml (row_idx : Nat) : List Nat × Option (List Nat) × Bool → List Nat
  | (col_letter, val, is_num) =>
    let ref := col_letter ++ natDigits row_idx
    if is_num then
      strCodes "<c r=\"" ++ ref ++ strCodes "\"><v>" ++ pyStrOfVal val ++ strCodes "</v></c>"
    else
      strCodes "<c r=\"" ++ ref ++ strCodes "\" t=\"inlineStr\"><is><t>" ++
        escape (val.getD []) ++ strCodes "</t></is></c>"

/-- The cell elements `build_row_xml` appends to `parts`: one per element of
`zip(col_letters, values, num_flags)`. -/
def rowCells (row_idx : Nat) (values : List (Option (List Nat))) (num_flags : List Bool)
    (col_letters : List (List Nat)) : List (List Nat) :=
  (zip3 col_letters values num_flags).map (cellXml row_idx)

/-- `build_row_xml` from `fake_excel_generator.py`: the joined `parts` list. -/
def build_row_xml (row_idx : Nat) (values : List (Option (List Nat))) (num_flags : List Bool)
    (col_letters : List (List Nat)) : List Nat :=
  ((strCodes "<row r=\"" ++ natDigits row_idx ++ strCodes "\">") ::
    rowCells row_idx values num_flags col_letters ++ [strCodes "</row>" ++ [10]]).flatten

/-- An archive is its ordered member list: (name, byte content) pairs. -/
abbrev Archive := List (List Nat × List Nat)

/-- First-match association lookup, modelling `replacements[item.filename]`
on the Python dict (dict keys are unique, so first match is the match). -/
def dictLookup (k : List Nat) : List (List Nat × List Nat) → Option (List Nat)
  | [] => none
  | (k', v) :: rest => if k' = k then some v else dictLookup k rest

/-- The copy-and-substitute pass of `main` in `fake_excel_generator.py`:
for every `item` of `src_zip.infolist()` in order, the output receives the
replacement file's bytes under the same name when `item.filename` is a key
of `replacements`, and otherwise `src_zip.read(item.filename)` unchanged. -/
def patch_archive (src : Archive) (replacements : List (List Nat × List Nat)) : Archive :=
  src.map (fun item =>
    match dictLookup item.1 replacements with
    | some content => (item.1, content)
    | none => item)

/-- `str.replace("Week Ending", "")` from `parse_time_to_datetime`: removes
every (non-overlapping, leftmost-first) occurrence of the 11-character
pattern `Week Ending` (`W e e k ␣ E n d i n g`). -/
def removeWeekEnding : List Nat → List Nat
  | 87 :: 101 :: 101 :: 107 :: 32 :: 69 :: 110 :: 100 :: 105 :: 110 :: 103 :: rest =>
    removeWeekEnding rest
  | c :: rest => c :: removeWeekEnding rest
  | [] => []

/-- Whether a year is a Gregorian leap year. -/
def isLeapYear (y : Nat) : Bool := y % 4 = 0 && (y % 100 ≠ 0 || y % 400 = 0)

/-- Number of days of month `m` in year `y`. -/
def daysInMonth (y m : Nat) : Nat :=
  if m = 2 then (if isLeapYear y then 29 else 28)
  else if m = 4 ∨ m = 6 ∨ m = 9 ∨ m = 11 then 30
  else 31

/-- Greedy one-or-two-digit number at the head of the input, with the rest;
how strptime's `%m` and `%d` directives consume digits. -/
def parseTwoDigitsMax : List Nat → Option (Nat × List Nat)
  | c1 :: c2 :: rest =>
    if isDigitCode c1 then
      if isDigitCode c2 then some ((c1 - 48) * 10 + (c2 - 48), rest)
      else some (c1 - 48, c2 :: rest)
    else none
  | [c1] => if isDigitCode c1 then some (c1 - 48, []) else none
  | [] => none

/-- Exactly two digits at the head of the input, with the rest; how
strptime's `%y` directive consumes digits. -/
def parseTwoDigitsExact : List Nat → Option (Nat × List Nat)
  | c1 :: c2 :: rest =>
    if isDigitCode c1 && isDigitCode c2 then some ((c1 - 48) * 10 + (c2 - 48), rest)
    else none
  | _ => none

/-- Consume one literal `-` separator, as the format string demands. -/
def expectDash : List Nat → Option (List Nat)
  | 45 :: rest => some rest
  | _ => none

/-- `pandas.to_datetime(s, format="%m-%d-%y", errors="coerce")` on a stripped
date string, following the CPython/pandas strptime rules for this format:
`%m` and `%d` take one or two digits, `%y` exactly two, the whole string must
be consumed, the two-digit year maps through the POSIX window (00–68 to
2000–2068, 69–99 to 1969–1999), and an impossible calendar date coerces to
`NaT` (`none`).  Returns (month, day, resolved year). -/
def strptime_mdy (s : List Nat) : Option (Nat × Nat × Nat) :=
  (parseTwoDigitsMax s).bind (fun mr =>
    (expectDash mr.2).bind (fun r2 =>
      (parseTwoDigitsMax r2).bind (fun dr =>
        (expectDash dr.2).bind (fun r4 =>
          (parseTwoDigitsExact r4).bind (fun yr =>
            if yr.2 = [] then
              if 1 ≤ mr.1 ∧ mr.1 ≤ 12 ∧ 1 ≤ dr.1 ∧
                  dr.1 ≤ daysInMonth (if yr.1 ≤ 68 then 2000 + yr.1 else 1900 + yr.1) mr.1 then
                some (mr.1, dr.1, if yr.1 ≤ 68 then 2000 + yr.1 else 1900 + yr.1)
              else none
            else none)))))

/-- `parse_time_to_datetime` from `transformar_weeks.py`: `none` input models
a `NaN` (`pd.isna`) time value, and the result is the (month, day, year) of
the parsed datetime, `none` for `NaT`. -/
def parse_time_to_datetime (time_str : Option (List Nat)) : Option (Nat × Nat × Nat) :=
  match time_str with
  | none => none
  | some s => strptime_mdy (pyStrip (removeWeekEnding s))

/-- Argument-less `str.split()`: splits on whitespace runs, producing no
empty fields (helper with an accumulator for the current field, reversed). -/
def pySplitAux : List Nat → List Nat → List (List Nat)
  | [], [] => []
  | [], cur => [cur.reverse]
  | c :: rest, cur =>
    if isPySpace c then
      if cur = [] then pySplitAux rest [] else cur.reverse :: pySplitAux rest []
    else pySplitAux rest (c :: cur)

/-- Python `s.split()` with no arguments. -/
def pySplit (s : List Nat) : List (List Nat) := pySplitAux s []

/-- The `Year_from_Time` extraction of the `Year_vs_Time` rule in
`data_quality.py`: strip and split the time text, scan the tokens from the
end for the first one containing a `-`, take the segment after its last `-`,
parse it with `int`, and window the two-digit year with the explicit pivot
50 (`yy < 50` to `2000 + yy`, otherwise `1900 + yy`).  `none` models the
`np.nan` fallback of the `try`/`except`. -/
def dq_year_from_time (val : List Nat) : Option Int :=
  let parts := pySplit (pyStrip val)
  match parts.reverse.find? (fun p => p.contains 45) with
  | none => none
  | some candidate =>
    match (candidate.splitOn 45).getLast? with
    | none => none
    | some yy =>
      match pyInt? yy with
      | none => none
      | some yy_int => some (if yy_int < 50 then 2000 + yy_int else 1900 + yy_int)

theorem col_letter_to_index_snoc (xs : List Nat) (c : Nat) :
    col_letter_to_index (xs ++ [c]) = col_letter_to_index xs * 26 + charVal c := by
  unfold col_letter_to_index
  rw [List.foldl_append]
  rfl

theorem charVal_letter_digit (r : Nat) (h : r < 26) : charVal (65 + r) = (r : Int) + 1 := by
  unfold charVal pyUpper
  rw [if_neg (by omega)]
  push_cast
  omega

theorem col_roundtrip (n : Nat) : col_letter_to_index (col_index_to_letter n) = (n : Int) := by
  induction n using Nat.strong_induction_on with
  | _ n ih =>
    match n with
    | 0 => simp [col_index_to_letter, col_letter_to_index]
    | m + 1 =>
      rw [col_index_to_letter, col_letter_to_index_snoc,
        ih (m / 26) (Nat.lt_succ_of_le (Nat.div_le_self m 26)),
        charVal_letter_digit (m % 26) (Nat.mod_lt m (by omega))]
      push_cast
      omega

/-- C2: for every positive integer n with 1 ≤ n ≤ 18278,
`col_letter_to_index (col_index_to_letter n) = n`. -/
theorem roundtrip_col_letters (n : Nat) (h1 : 1 ≤ n) (h2 : n ≤ 18278) :
    col_letter_to_index (col_index_to_letter n) = (n : Int) :=
  col_roundtrip n

theorem roundtrip_col_letters_witness :
    1 ≤ 703 ∧ 703 ≤ 18278 ∧ col_letter_to_index (col_index_to_letter 703) = (703 : Int) :=
  ⟨by decide, by decide, roundtrip_col_letters 703 (by decide) (by decide)⟩

theorem loop_fuel_adequate :
    ∀ (fuel n : Nat), n ≤ fuel →
      col_index_to_letter_loop fuel (n : Int) = some (col_index_to_letter n) := by
  intro fuel
  induction fuel with
  | zero =>
    intro n hn
    have h0 : n = 0 := Nat.le_zero.mp hn
    subst h0
    simp [col_index_to_letter_loop, col_index_to_letter]
  | succ f ihf =>
    intro n hn
    match n with
    | 0 => simp [col_index_to_letter_loop, col_index_to_letter]
    | m + 1 =>
      rw [col_index_to_letter_loop, if_neg (by exact_mod_cast Nat.succ_ne_zero m)]
      have h1 : ((m + 1 : Nat) : Int) - 1 = ((m : Nat) : Int) := by push_cast; ring
      have h2 : ((m : Nat) : Int).fdiv 26 = (((m / 26 : Nat)) : Int) := by
        rw [Int.fdiv_eq_ediv _ (by omega)]
        omega
      have h3 : ((m : Nat) : Int).fmod 26 = (((m % 26 : Nat)) : Int) := by
        rw [Int.fmod_eq_emod _ (by omega)]
        omega
      rw [h1, h2, h3,
        ihf (m / 26) (le_trans (Nat.div_le_self m 26) (Nat.lt_succ_iff.mp hn)),
        col_index_to_letter]
      simp
      omega

theorem loop_never_stops_on_negative (idx : Int) (hidx : idx < 0) (fuel : Nat) :
    col_index_to_letter_loop fuel idx = none := by
  induction fuel generalizing idx with
  | zero => rw [col_index_to_letter_loop, if_neg (by omega)]
  | succ f ih =>
    rw [col_index_to_letter_loop, if_neg (by omega)]
    have hq : (idx - 1).fdiv 26 < 0 := by
      have hid := Int.fdiv_add_fmod (idx - 1) 26
      have h0 := @Int.fmod_nonneg' (idx - 1) 26 (by omega)
      have h1 := @Int.fmod_lt_of_pos (idx - 1) 26 (by omega)
      omega
    rw [ih _ hq]

/-- C10: the `while idx:` loop of `col_index_to_letter` terminates within n
iterations for every integer n ≥ 0 (the remaining index strictly decreases),
returns the empty string for n = 0, and never terminates for negative n, so
the total embedding `col_index_to_letter` carries the precondition n ≥ 0. -/
theorem col_index_to_letter_termination :
    (∀ n : Nat, col_index_to_letter_loop n (n : Int) = some (col_index_to_letter n)) ∧
    col_index_to_letter 0 = [] ∧
    (∀ idx : Int, idx < 0 → ∀ fuel : Nat, col_index_to_letter_loop fuel idx = none) :=
  ⟨fun n => loop_fuel_adequate n n le_rfl,
   by simp [col_index_to_letter],
   fun idx h fuel => loop_never_stops_on_negative idx h fuel⟩

theorem col_index_to_letter_termination_witness :
    (-1 : Int) < 0 ∧ col_index_to_letter_loop 5 (-1) = none :=
  ⟨by decide, col_index_to_letter_termination.2.2 (-1) (by decide) 5⟩

theorem charVal_asciiLower (c : Nat) : charVal (asciiLower c) = charVal c := by
  unfold charVal asciiLower pyUpper
  split_ifs <;> omega

theorem charVal_pyUpper (c : Nat) : charVal (pyUpper c) = charVal c := by
  unfold charVal pyUpper
  split_ifs <;> omega

theorem col_letter_to_index_map_eq (f : Nat → Nat) (s : List Nat)
    (h : ∀ c ∈ s, charVal (f c) = charVal c) :
    col_letter_to_index (s.map f) = col_letter_to_index s := by
  unfold col_letter_to_index
  suffices H : ∀ a : Int,
      (s.map f).foldl (fun idx ch => idx * 26 + charVal ch) a =
        s.foldl (fun idx ch => idx * 26 + charVal ch) a by
    exact H 0
  induction s with
  | nil => intro a; rfl
  | cons c rest ih =>
    intro a
    simp only [List.map_cons, List.foldl_cons]
    rw [h c (by simp)]
    exact ih (fun x hx => h x (by simp [hx])) _

/-- C8 amended: `col_letter_to_index` is case-insensitive (on the ASCII
range, where the embedding of Python's case mapping is exact); it never
fails on non-alphabetic input — the counterexample shows it returns a number
there instead of raising `InvalidAddress`. -/
theorem col_letter_to_index_case_insensitive (s : List Nat) (h : ∀ c ∈ s, c < 128) :
    col_letter_to_index (s.map asciiLower) = col_letter_to_index s ∧
    col_letter_to_index (s.map pyUpper) = col_letter_to_index s :=
  ⟨col_letter_to_index_map_eq asciiLower s (fun c _ => charVal_asciiLower c),
   col_letter_to_index_map_eq pyUpper s (fun c _ => charVal_pyUpper c)⟩

theorem col_letter_to_index_case_insensitive_witness :
    (∀ c ∈ [97, 66], c < 128) ∧
    col_letter_to_index ([97, 66].map asciiLower) = col_letter_to_index [97, 66] ∧
    col_letter_to_index ([97, 66].map pyUpper) = col_letter_to_index [97, 66] :=
  ⟨by decide,
   (col_letter_to_index_case_insensitive [97, 66] (by decide)).1,
   (col_letter_to_index_case_insensitive [97, 66] (by decide)).2⟩

/-- C8 counterexample: on the non-alphabetic input `"1"` the code returns
the number −15 (`0 * 26 + (ord("1") - 64)`) instead of failing, while the
specification's contract demands an `InvalidAddress` failure. -/
theorem col_letter_to_index_nonalpha_returns_number :
    col_letter_to_index [49] = -15 ∧
    col_letter_to_index_spec [49] = Except.error AddrError.invalidAddress := by
  constructor <;> rfl

theorem replaceChar_append (p : Nat) (r xs ys : List Nat) :
    replaceChar p r (xs ++ ys) = replaceChar p r xs ++ replaceChar p r ys := by
  induction xs with
  | nil => rfl
  | cons c rest ih => simp [replaceChar, ih]

theorem escape_cons (c : Nat) (s : List Nat) :
    escape (c :: s) =
      (if c = 38 then ampEnt else if c = 60 then ltEnt else if c = 62 then gtEnt else [c]) ++
        escape s := by
  unfold escape
  by_cases h38 : c = 38
  · subst h38
    have e1 : replaceChar 38 ampEnt (38 :: s) = ampEnt ++ replaceChar 38 ampEnt s := by
      simp [replaceChar]
    rw [e1, replaceChar_append, replaceChar_append]
    have e2 : replaceChar 60 ltEnt ampEnt = ampEnt := by decide
    have e3 : replaceChar 62 gtEnt ampEnt = ampEnt := by decide
    rw [e2, e3, if_pos rfl]
  · by_cases h60 : c = 60
    · subst h60
      have e1 : replaceChar 38 ampEnt (60 :: s) = 60 :: replaceChar 38 ampEnt s := by
        simp [replaceChar]
      have e2 : replaceChar 60 ltEnt (60 :: replaceChar 38 ampEnt s) =
          ltEnt ++ replaceChar 60 ltEnt (replaceChar 38 ampEnt s) := by
        simp [replaceChar]
      rw [e1, e2, replaceChar_append]
      have e3 : replaceChar 62 gtEnt ltEnt = ltEnt := by decide
      rw [e3]
      simp
    · by_cases h62 : c = 62
      · subst h62
        have e1 : replaceChar 38 ampEnt (62 :: s) = 62 :: replaceChar 38 ampEnt s := by
          simp [replaceChar]
        have e2 : ∀ l, replaceChar 60 ltEnt (62 :: l) = 62 :: replaceChar 60 ltEnt l := by
          intro l; simp [replaceChar]
        have e3 : ∀ l, replaceChar 62 gtEnt (62 :: l) = gtEnt ++ replaceChar 62 gtEnt l := by
          intro l; simp [replaceChar]
        rw [e1, e2, e3]
        simp [h38, h60]
      · have e1 : replaceChar 38 ampEnt (c :: s) = c :: replaceChar 38 ampEnt s := by
          simp [replaceChar, h38]
        have e2 : ∀ l, replaceChar 60 ltEnt (c :: l) = c :: replaceChar 60 ltEnt l := by
          intro l; simp [replaceChar, h60]
        have e3 : ∀ l, replaceChar 62 gtEnt (c :: l) = c :: replaceChar 62 gtEnt l := by
          intro l; simp [replaceChar, h62]
        rw [e1, e2, e3]
        simp [h38, h60, h62]

theorem unescape_cons_ne {c : Nat} (h : c ≠ 38) (rest : List Nat) :
    unescape (c :: rest) = c :: unescape rest := by
  rw [unescape]
  simp [h]

theorem unescape_amp (rest : List Nat) :
    unescape (38 :: 97 :: 109 :: 112 :: 59 :: rest) = 38 :: unescape rest := by
  rw [unescape]
  simp [List.isPrefixOf]

theorem unescape_lt (rest : List Nat) :
    unescape (38 :: 108 :: 116 :: 59 :: rest) = 60 :: unescape rest := by
  rw [unescape]
  simp [List.isPrefixOf]

theorem unescape_gt (rest : List Nat) :
    unescape (38 :: 103 :: 116 :: 59 :: rest) = 62 :: unescape rest := by
  rw [unescape]
  simp [List.isPrefixOf]

/-- C3 amended: the text branch of the Row Encoder escapes exactly `&`, `<`
and `>` (not `"` or `'`, which pass through unchanged, as the counterexample
shows); this still keeps the emitted text free of raw `<`/`>` markup
characters, and XML re-parsing of the emitted content recovers the exact
original string. -/
theorem escape_roundtrip_and_markup_free (s : List Nat) :
    unescape (escape s) = s ∧ ¬ 60 ∈ escape s ∧ ¬ 62 ∈ escape s := by
  induction s with
  | nil =>
    refine ⟨?_, ?_, ?_⟩ <;> simp [escape, replaceChar, unescape]
  | cons c s ih =>
    rw [escape_cons]
    refine ⟨?_, ?_, ?_⟩
    · by_cases h38 : c = 38
      · subst h38
        rw [if_pos rfl]
        show unescape (38 :: 97 :: 109 :: 112 :: 59 :: escape s) = 38 :: s
        rw [unescape_amp, ih.1]
      · by_cases h60 : c = 60
        · subst h60
          rw [if_neg h38, if_pos rfl]
          show unescape (38 :: 108 :: 116 :: 59 :: escape s) = 60 :: s
          rw [unescape_lt, ih.1]
        · by_cases h62 : c = 62
          · subst h62
            rw [if_neg h38, if_neg h60, if_pos rfl]
            show unescape (38 :: 103 :: 116 :: 59 :: escape s) = 62 :: s
            rw [unescape_gt, ih.1]
          · rw [if_neg h38, if_neg h60, if_neg h62, List.cons_append, List.nil_append,
              unescape_cons_ne h38, ih.1]
    · rw [List.mem_append]
      rintro (hmem | hmem)
      · split_ifs at hmem with h38 h60 h62
        · exact absurd hmem (by decide)
        · exact absurd hmem (by decide)
        · exact absurd hmem (by decide)
        · simp only [List.mem_singleton] at hmem
          exact h60 hmem.symm
      · exact ih.2.1 hmem
    · rw [List.mem_append]
      rintro (hmem | hmem)
      · split_ifs at hmem with h38 h60 h62
        · exact absurd hmem (by decide)
        · exact absurd hmem (by decide)
        · exact absurd hmem (by decide)
        · simp only [List.mem_singleton] at hmem
          exact h62 hmem.symm
      · exact ih.2.2 hmem

/-- C3 counterexample: `escape` leaves `"` (code 34) and `'` (code 39)
unchanged — they are not escaped — while `&` (code 38) becomes `&amp;`. -/
theorem escape_skips_quote_and_apos :
    escape [34] = [34] ∧ escape [39] = [39] ∧ escape [38] = [38, 97, 109, 112, 59] := by
  refine ⟨rfl, rfl, rfl⟩

theorem cellLe_trans (a b c : SheetCell) (h1 : cellLe a b) (h2 : cellLe b c) : cellLe a c := by
  simp only [cellLe, decide_eq_true_eq] at *
  omega

theorem cellLe_total (a b : SheetCell) : cellLe a b || cellLe b a := by
  simp only [cellLe, Bool.or_eq_true, decide_eq_true_eq]
  omega

/-- C4: for any first row, however its cells are ordered in the XML, the
scanner's sorted cell list is ascending in each cell's own reference-derived
column key, is a permutation of the row's cells, the headers are decoded
from exactly that sorted list, and an unparseable reference falls back to
the key of column "A". -/
theorem first_row_headers_sorted (shared_strings : List (List Nat)) (cells : List SheetCell) :
    (sortedFirstRow cells).Pairwise (fun a b => cellSortKey a ≤ cellSortKey b) ∧
    (sortedFirstRow cells).Perm cells ∧
    firstRowHeaders shared_strings cells =
      (sortedFirstRow cells).map (fun c => decode_cell c.cell shared_strings) ∧
    (∀ ref : List Nat, leadingLetters ref = [] → refSortKey ref = 1) := by
  refine ⟨?_, List.mergeSort_perm cells cellLe, rfl, ?_⟩
  · have h := @List.sorted_mergeSort _ cellLe cellLe_trans cellLe_total cells
    exact h.imp (fun hb => by simpa [cellLe] using hb)
  · intro ref h
    rw [refSortKey, h]
    rfl

theorem first_row_headers_sorted_witness :
    leadingLetters [49] = [] ∧ refSortKey [49] = 1 :=
  ⟨by decide, (first_row_headers_sorted [] []).2.2.2 [49] (by decide)⟩

/-- C5: the Shared-String Table Reader yields the empty sequence when the
part is absent, an output entry per `si` entry in order, and each output
string is the concatenation of ALL text runs of its entry (the witness
instantiates the runs ["Foo", "Bar"], decoding to "FooBar"). -/
theorem parse_shared_strings_spec :
    parse_shared_strings none = [] ∧
    (∀ sis : List SharedStringEntry, (parse_shared_strings (some sis)).length = sis.length) ∧
    (∀ (sis : List SharedStringEntry) (i : Nat) (h : i < sis.length),
      (parse_shared_strings (some sis))[i]? =
        some (((sis.get ⟨i, h⟩).runs.map (fun t => t.getD [])).flatten)) := by
  refine ⟨rfl, fun sis => by simp [parse_shared_strings], fun sis i h => ?_⟩
  show (sis.map entryText)[i]? = _
  rw [List.getElem?_map, List.getElem?_eq_getElem h]
  rfl

theorem parse_shared_strings_spec_witness :
    (0 : Nat) < 1 ∧
    (parse_shared_strings
        (some [⟨[some (strCodes "Foo"), some (strCodes "Bar")]⟩]))[0]? =
      some (strCodes "FooBar") :=
  ⟨by decide,
   (parse_shared_strings_spec.2.2 [⟨[some (strCodes "Foo"), some (strCodes "Bar")]⟩] 0
      (by decide)).trans (by rfl)⟩

/-- C6 amended: for a shared-string cell whose index is an integer idx, the
Cell Decoder returns empty text when idx ≥ table length, but negative
indices follow Python list semantics: −len ≤ idx < 0 resolves to the entry
at len + idx (not empty text), and idx < −len raises IndexError (modelled
`none`) rather than resolving tolerantly. -/
theorem decode_cell_shared_index_behavior (shared_strings : List (List Nat))
    (vtext : List Nat) (idx : Int) (hv : pyInt? vtext = some idx) :
    ((shared_strings.length : Int) ≤ idx →
      decode_cell ⟨some [115], some (some vtext), none⟩ shared_strings = some []) ∧
    (idx < 0 → 0 ≤ idx + shared_strings.length →
      decode_cell ⟨some [115], some (some vtext), none⟩ shared_strings =
        shared_strings[(idx + shared_strings.length).toNat]?) ∧
    (idx + (shared_strings.length : Int) < 0 →
      decode_cell ⟨some [115], some (some vtext), none⟩ shared_strings = none) := by
  have hcell : decode_cell ⟨some [115], some (some vtext), none⟩ shared_strings =
      (if idx < (shared_strings.length : Int) then pyIndex shared_strings idx
       else some []) := by
    unfold decode_cell
    rw [if_pos ⟨rfl, rfl⟩]
    show (match pyInt? vtext with
      | some idx =>
        if idx < (shared_strings.length : Int) then pyIndex shared_strings idx else some []
      | none => none) =
      (if idx < (shared_strings.length : Int) then pyIndex shared_strings idx else some [])
    rw [hv]
  refine ⟨?_, ?_, ?_⟩
  · intro h
    rw [hcell, if_neg (not_lt.mpr h)]
  · intro h1 h2
    rw [hcell, if_pos (lt_of_lt_of_le h1 (by positivity))]
    unfold pyIndex
    rw [if_neg (not_le.mpr h1), if_pos h2]
  · intro h
    rw [hcell, if_pos (by omega)]
    unfold pyIndex
    rw [if_neg (by omega), if_neg (by omega)]

theorem decode_cell_shared_index_behavior_witness :
    pyInt? [53] = some 5 ∧ (([[65], [66]] : List (List Nat)).length : Int) ≤ 5 ∧
    decode_cell ⟨some [115], some (some [53]), none⟩ [[65], [66]] = some [] :=
  ⟨by decide, by decide,
   (decode_cell_shared_index_behavior [[65], [66]] [53] 5 (by decide)).1 (by decide)⟩

/-- C6 counterexample: with shared table ["A", "B"], a shared-string cell
with index text "-1" decodes to the last entry "B" (Python negative
indexing), not to the empty string, and index text "-3" raises IndexError
(modelled `none`), so neither negative case resolves to empty text. -/
theorem decode_cell_negative_index_not_empty :
    decode_cell ⟨some [115], some (some [45, 49]), none⟩ [[65], [66]] = some [66] ∧
    decode_cell ⟨some [115], some (some [45, 51]), none⟩ [[65], [66]] = none := by
  exact ⟨rfl, rfl⟩

theorem zip3_length (as : List α) (bs : List β) (cs : List γ) :
    (zip3 as bs cs).length = min as.length (min bs.length cs.length) := by
  induction as generalizing bs cs with
  | nil => simp [zip3]
  | cons a as ih =>
    cases bs with
    | nil => simp [zip3]
    | cons b bs =>
      cases cs with
      | nil => simp [zip3]
      | cons c cs =>
        simp only [zip3, List.length_cons, ih]
        omega

/-- C7 amended: the code contains no `SchemaMismatch` check at all — when
the numeric-flags sequence length differs from the header length, each data
row is emitted with min(#columns, #values, #flags) cells: `zip` silently
truncates, and the sheet is written anyway (the counterexample exhibits the
truncated row bytes). -/
theorem row_cells_length_eq_min (row_idx : Nat) (values : List (Option (List Nat)))
    (num_flags : List Bool) (col_letters : List (List Nat)) :
    (rowCells row_idx values num_flags col_letters).length =
      min col_letters.length (min values.length num_flags.length) := by
  unfold rowCells
  rw [List.length_map, zip3_length]

/-- C7 counterexample: a two-value row with a one-element flags sequence is
emitted as a row holding a single cell — silently truncated, with the row
bytes written out, and no failure ever raised. -/
theorem build_row_xml_truncates_on_flag_mismatch :
    (rowCells 2 [some [120], some [121]] [false] [[65], [66]]).length = 1 ∧
    build_row_xml 2 [some [120], some [121]] [false] [[65], [66]] =
      strCodes "<row r=\"2\"><c r=\"A2\" t=\"inlineStr\"><is><t>x</t></is></c></row>" ++ [10] := by
  exact ⟨rfl, rfl⟩

/-- C1: the archive-patch copy pass keeps the member-name sequence of the
source archive, copies every member whose name is not a replacement key
unchanged, and substitutes the synthesized bytes for every member whose
name is a replacement key. -/
theorem patch_archive_frame (src : Archive) (replacements : List (List Nat × List Nat))
    (i : Nat) (h : i < src.length) :
    (patch_archive src replacements).map Prod.fst = src.map Prod.fst ∧
    (dictLookup (src[i]).1 replacements = none →
      (patch_archive src replacements)[i]? = some (src[i])) ∧
    (∀ b, dictLookup (src[i]).1 replacements = some b →
      (patch_archive src replacements)[i]? = some ((src[i]).1, b)) := by
  refine ⟨?_, ?_, ?_⟩
  · show (src.map _).map Prod.fst = src.map Prod.fst
    rw [List.map_map]
    apply List.map_congr_left
    intro item _
    cases hl : dictLookup item.1 replacements <;> simp [hl]
  · intro hnone
    show (src.map _)[i]? = _
    rw [List.getElem?_map, List.getElem?_eq_getElem h]
    simp [hnone]
  · intro b hb
    show (src.map _)[i]? = _
    rw [List.getElem?_map, List.getElem?_eq_getElem h]
    simp [hb]

theorem patch_archive_frame_witness :
    (0 : Nat) < 2 ∧ (1 : Nat) < 2 ∧
    (patch_archive [([97], [1]), ([98], [2])] [([98], [9])]).map Prod.fst =
      [([97], [1]), ([98], [2])].map Prod.fst ∧
    (patch_archive [([97], [1]), ([98], [2])] [([98], [9])])[0]? = some ([97], [1]) ∧
    (patch_archive [([97], [1]), ([98], [2])] [([98], [9])])[1]? = some ([98], [9]) :=
  ⟨by decide, by decide,
   (patch_archive_frame [([97], [1]), ([98], [2])] [([98], [9])] 0 (by decide)).1,
   (patch_archive_frame [([97], [1]), ([98], [2])] [([98], [9])] 0 (by decide)).2.1 (by decide),
   (patch_archive_frame [([97], [1]), ([98], [2])] [([98], [9])] 1 (by decide)).2.2 [9]
     (by decide)⟩

theorem parseTwoDigitsExact_le (r : List Nat) (yy : Nat) (rest : List Nat)
    (h : parseTwoDigitsExact r = some (yy, rest)) : yy ≤ 99 := by
  match r with
  | [] => exact absurd h (by simp [parseTwoDigitsExact])
  | [c] => exact absurd h (by simp [parseTwoDigitsExact])
  | c1 :: c2 :: rs =>
    simp only [parseTwoDigitsExact] at h
    by_cases hd : isDigitCode c1 && isDigitCode c2
    · rw [if_pos hd] at h
      injection h with h1
      have h2 : yy = (c1 - 48) * 10 + (c2 - 48) := (Prod.mk.injEq .. ▸ h1).1.symm
      simp only [isDigitCode, Bool.and_eq_true, decide_eq_true_eq] at hd
      omega
    · rw [if_neg hd] at h
      cases h

theorem strptime_mdy_year_window (s : List Nat) (m d y : Nat)
    (h : strptime_mdy s = some (m, d, y)) :
    y = if y % 100 ≤ 68 then 2000 + y % 100 else 1900 + y % 100 := by
  unfold strptime_mdy at h
  cases h1 : parseTwoDigitsMax s with
  | none => rw [h1] at h; exact Option.noConfusion h
  | some p1 =>
    rw [h1] at h
    simp only [Option.some_bind] at h
    cases hd1 : expectDash p1.2 with
    | none => rw [hd1] at h; exact Option.noConfusion h
    | some r2 =>
      rw [hd1] at h
      simp only [Option.some_bind] at h
      cases h2 : parseTwoDigitsMax r2 with
      | none => rw [h2] at h; exact Option.noConfusion h
      | some p2 =>
        rw [h2] at h
        simp only [Option.some_bind] at h
        cases hd2 : expectDash p2.2 with
        | none => rw [hd2] at h; exact Option.noConfusion h
        | some r4 =>
          rw [hd2] at h
          simp only [Option.some_bind] at h
          cases h3 : parseTwoDigitsExact r4 with
          | none => rw [h3] at h; exact Option.noConfusion h
          | some p3 =>
            rw [h3] at h
            simp only [Option.some_bind] at h
            have hyy : p3.1 ≤ 99 :=
              parseTwoDigitsExact_le _ _ _ (h3.trans (by rw [Prod.mk.eta]))
            split_ifs at h <;>
              first
                | exact Option.noConfusion h
                | (simp only [Option.some.injEq, Prod.mk.injEq] at h
                   obtain ⟨-, -, hy⟩ := h
                   split_ifs <;> omega)

/-- C9 amended: the two-digit year window of `parse_time_to_datetime` (a
`%y` strptime parse) pivots at 69, not 50: every parsed year satisfies
y = 2000 + yy for yy ≤ 68 and y = 1900 + yy for 69 ≤ yy ≤ 99, so "55"
resolves to 2055 there; the explicit pivot-50 rule of the specification
(yy < 50 to the 2000s, else the 1900s, "55" to 1955) holds only for the
`Year_from_Time` extraction of the data-quality rule, embedded as
`dq_year_from_time`. -/
theorem year_from_text_pivots :
    (∀ (s : List Nat) (m d y : Nat),
      parse_time_to_datetime (some s) = some (m, d, y) →
      y = if y % 100 ≤ 68 then 2000 + y % 100 else 1900 + y % 100) ∧
    dq_year_from_time (strCodes "Week Ending 01-05-55") = some 1955 ∧
    dq_year_from_time (strCodes "Week Ending 01-05-49") = some 2049 := by
  refine ⟨?_, by rfl, by rfl⟩
  intro s m d y h
  exact strptime_mdy_year_window (pyStrip (removeWeekEnding s)) m d y h

theorem year_from_text_pivots_witness :
    parse_time_to_datetime (some (strCodes "Week Ending 01-05-25")) = some (1, 5, 2025) ∧
    2025 = if 2025 % 100 ≤ 68 then 2000 + 2025 % 100 else 1900 + 2025 % 100 :=
  ⟨by decide,
   year_from_text_pivots.1 (strCodes "Week Ending 01-05-25") 1 5 2025 (by decide)⟩

/-- C9 counterexample: on "Week Ending 01-05-55" the year-from-text parsing
of `parse_time_to_datetime` resolves the two-digit year "55" to 2055, never
to 1955 as the claimed pivot-50 rule would require. -/
theorem parse_time_year_55_is_2055 :
    parse_time_to_datetime (some (strCodes "Week Ending 01-05-55")) = some (1, 5, 2055) ∧
    ¬ ∃ m d : Nat,
        parse_time_to_datetime (some (strCodes "Week Ending 01-05-55")) =
          some (m, d, 1955) := by
  have h : parse_time_to_datetime (some (strCodes "Week Ending 01-05-55")) =
      some (1, 5, 2055) := by decide
  refine ⟨h, ?_⟩
  rintro ⟨m, d, hmd⟩
  rw [h] at hmd
  simp at hmd

end Circana
